import Mathlib

/-!
Shallow embedding of the `oneline-eyre` crate (`src/lib.rs`): a minimal
one-line error-report formatter for `eyre`, together with its one-shot
global installation entry points.

The embedding models:
* an error chain (`ErrChain`): each node exposes a display string
  (`Display` in Rust), a generic structural debug rendering
  (`core::fmt::Debug`), and an optional cause (`Error::source`);
* the formatter sink (`FmtState`): an append-only text buffer together
  with an oracle `writeOk` deciding whether each successive `write!`
  call succeeds, so that sink write failures are representable;
* `Handler` with its `debug` method, translated line by line from
  `impl EyreHandler for Handler` (src/lib.rs lines 79-100);
* the install entry points `install` / `install_custom`
  (src/lib.rs lines 118-139), over an installation slot whose
  claim semantics come from the spec, since `eyre::set_hook` lives in
  the external `eyre` crate.
-/

/-- An error chain node, as seen through the `dyn Error` interface used by
`Handler::debug`: a display string, a generic structural debug rendering
(the output of `core::fmt::Debug::fmt` for this node, implementation
defined by the concrete error type), and an optional cause. -/
inductive ErrChain where
  | leaf (display : String) (debugRepr : String)
  | cons (display : String) (debugRepr : String) (cause : ErrChain)
deriving DecidableEq

/-- The display string of a node (`Display::fmt`, i.e. `write!(f, "{}", error)`). -/
def ErrChain.display : ErrChain → String
  | .leaf d _ => d
  | .cons d _ _ => d

/-- The generic structural debug rendering of a node (`core::fmt::Debug::fmt`). -/
def ErrChain.debugRepr : ErrChain → String
  | .leaf _ r => r
  | .cons _ r _ => r

/-- The optional cause of a node (`Error::source`). -/
def ErrChain.source : ErrChain → Option ErrChain
  | .leaf _ _ => none
  | .cons _ _ c => some c

/-- The sequence of nodes produced by
`std::iter::successors(Some(e), |e| e.source())`: the node itself followed
by its causes, root-to-leaf. -/
def chainList : ErrChain → List ErrChain
  | .leaf d r => [.leaf d r]
  | .cons d r c => .cons d r c :: chainList c

/-- The display strings of a chain, outermost first. -/
def displays (e : ErrChain) : List String :=
  (chainList e).map ErrChain.display

/-- The innermost (root-cause) node of a chain. -/
def rootCause : ErrChain → ErrChain
  | .leaf d r => .leaf d r
  | .cons _ _ c => rootCause c

/-- The state of the output sink behind a `core::fmt::Formatter`: the text
written so far, the number of successful `write!` calls so far, and an
oracle telling whether each successive write succeeds (modelling a sink
that may return an I/O error on any given write). -/
structure FmtState where
  written : String
  count : Nat
  writeOk : Nat → Bool

/-- One `write!` call: on success the text is appended and the write
counter advances; on failure the sink is left as it was (already-written
output is not rolled back) and `false` is returned, the model of the
`fmt::Error` propagated by `?`. -/
def FmtState.write (f : FmtState) (s : String) : FmtState × Bool :=
  if f.writeOk f.count then
    ({ f with written := f.written ++ s, count := f.count + 1 }, true)
  else
    (f, false)

/-- A fresh formatter over the given write oracle. -/
def FmtState.init (oracle : Nat → Bool) : FmtState :=
  { written := "", count := 0, writeOk := oracle }

/-- The oracle of a sink on which every write succeeds. -/
def alwaysOk : Nat → Bool := fun _ => true

/-- The handler type of src/lib.rs: `pub struct Handler { separator: &'static str }`. -/
structure Handler where
  separator : String

/-- `Handler::new` (src/lib.rs lines 74-76). -/
def Handler.new (separator : String) : Handler :=
  { separator := separator }

/-- The loop body of `Handler::debug` (src/lib.rs lines 93-95): for each
cause node in order, `write!(f, "{}{}", self.separator, error)?`. -/
def Handler.debugLoop (h : Handler) (errs : List ErrChain) (f : FmtState) :
    FmtState × Bool :=
  match errs with
  | [] => (f, true)
  | e :: rest =>
    let p := FmtState.write f (h.separator ++ e.display)
    if p.2 then Handler.debugLoop h rest p.1 else (p.1, false)

/-- `Handler::debug` (src/lib.rs lines 80-99). In alternate mode it
delegates to `core::fmt::Debug::fmt(error, f)`, modelled as writing the
node's generic debug rendering. Otherwise it writes the root display
string, then walks `std::iter::successors(Some(cause), |e| e.source())`
writing separator-plus-display for each cause, propagating the first
write failure. The returned `Bool` is `true` for `Ok(())`. -/
def Handler.debug (h : Handler) (error : ErrChain) (f : FmtState)
    (alternate : Bool) : FmtState × Bool :=
  if alternate then
    FmtState.write f error.debugRepr
  else
    let p := FmtState.write f error.display
    if p.2 then
      match error.source with
      | some cause => Handler.debugLoop h (chainList cause) p.1
      | none => (p.1, true)
    else
      (p.1, false)

/-- The separator-joined concatenation
`d0 ++ sep ++ d1 ++ sep ++ ... ++ sep ++ dn` named by the spec. -/
def sepJoin (sep : String) : List String → String
  | [] => ""
  | [d] => d
  | d :: d2 :: rest => d ++ sep ++ sepJoin sep (d2 :: rest)

/-- Plain concatenation of a list of strings. -/
def joinAll : List String → String
  | [] => ""
  | s :: rest => s ++ joinAll rest

/-- The successive strings passed to `write!` by `Handler::debug` in
minimal mode: the root display string, then separator-plus-display for
each cause node in order. -/
def writePieces (h : Handler) (e : ErrChain) : List String :=
  e.display ::
    (match e.source with
     | none => []
     | some c => (chainList c).map fun x => h.separator ++ x.display)

/-- Sequential execution of a list of `write!` calls, stopping at the
first failure. -/
def writeSeq (pieces : List String) (f : FmtState) : FmtState × Bool :=
  match pieces with
  | [] => (f, true)
  | s :: rest =>
    let p := FmtState.write f s
    if p.2 then writeSeq rest p.1 else (p.1, false)

/-- The error returned by `eyre::set_hook` when a global hook is already
installed. -/
inductive InstallError where
  | alreadyInstalled
deriving DecidableEq

/-- Modelled from the spec: the process-wide `InstallationSlot` behind
`eyre::set_hook`, whose implementation lives in the external `eyre` crate
and is not part of this crate's sources. It holds at most one hook, a
factory from the error value to a handler. -/
structure InstallSlot where
  hook : Option (ErrChain → Handler)

/-- The slot at process start: unoccupied. -/
def InstallSlot.empty : InstallSlot :=
  { hook := none }

/-- Modelled from the spec: `eyre::set_hook` atomically claims the slot;
it succeeds exactly when the slot is unoccupied, and a failed attempt
leaves the slot unchanged. -/
def set_hook (slot : InstallSlot) (hk : ErrChain → Handler) :
    InstallSlot × Except InstallError Unit :=
  match slot.hook with
  | none => ({ hook := some hk }, Except.ok ())
  | some _ => (slot, Except.error InstallError.alreadyInstalled)

/-- The hook closure registered by `install_custom` (src/lib.rs line 136):
`move |_| Box::new(Handler::new(separator))` — it ignores the error value
it is given. -/
def installHook (separator : String) : ErrChain → Handler :=
  fun _ => Handler.new separator

/-- `install_custom` (src/lib.rs lines 135-139): registers the hook and
propagates the result of `set_hook`. -/
def install_custom (slot : InstallSlot) (separator : String) :
    InstallSlot × Except InstallError Unit :=
  let p := set_hook slot (installHook separator)
  match p.2 with
  | Except.ok _ => (p.1, Except.ok ())
  | Except.error e => (p.1, Except.error e)

/-- `DEFAULT_SEPARATOR` (src/lib.rs line 103). -/
def DEFAULT_SEPARATOR : String := ": "

/-- `install` (src/lib.rs lines 118-120): `install_custom(DEFAULT_SEPARATOR)`. -/
def install (slot : InstallSlot) : InstallSlot × Except InstallError Unit :=
  install_custom slot DEFAULT_SEPARATOR

example :
    ((Handler.new ": ").debug
      (ErrChain.cons "outer" "x" (ErrChain.cons "middle" "y" (ErrChain.leaf "cause" "z")))
      (FmtState.init alwaysOk) false).1.written = "outer: middle: cause" := by
  decide

example :
    ((Handler.new ": ").debug (ErrChain.leaf "cause" "z")
      (FmtState.init alwaysOk) false).1.written = "cause" := by
  decide

example :
    ((Handler.new " / ").debug (ErrChain.cons "a" "x" (ErrChain.leaf "b" "y"))
      (FmtState.init alwaysOk) false).1.written = "a / b" := by
  decide

theorem joinAll_cons (s : String) (rest : List String) :
    joinAll (s :: rest) = s ++ joinAll rest := rfl

theorem sepJoin_eq (sep d : String) (ds : List String) :
    sepJoin sep (d :: ds) = d ++ joinAll (ds.map fun x => sep ++ x) := by
  induction ds generalizing d with
  | nil => simp [sepJoin, joinAll]
  | cons d2 rest ih =>
    rw [sepJoin, ih d2]
    simp [joinAll, String.append_assoc]

theorem writeSeq_writeOk (pieces : List String) (f : FmtState) :
    (writeSeq pieces f).1.writeOk = f.writeOk := by
  induction pieces generalizing f with
  | nil => rfl
  | cons s rest ih =>
    by_cases hc : f.writeOk f.count = true
    · simp [writeSeq, FmtState.write, hc, ih]
    · simp [writeSeq, FmtState.write, hc]

theorem writeSeq_ok (pieces : List String) (f : FmtState)
    (hok : ∀ j, j < pieces.length → f.writeOk (f.count + j) = true) :
    writeSeq pieces f =
      ({ f with written := f.written ++ joinAll pieces,
                count := f.count + pieces.length }, true) := by
  induction pieces generalizing f with
  | nil => simp [writeSeq, joinAll]
  | cons s rest ih =>
    have h0 : f.writeOk f.count = true := by simpa using hok 0 (by simp)
    have hw : FmtState.write f s =
        ({ f with written := f.written ++ s, count := f.count + 1 }, true) := by
      simp [FmtState.write, h0]
    have hrest : ∀ j, j < rest.length →
        ({ f with written := f.written ++ s, count := f.count + 1 } :
          FmtState).writeOk
          (({ f with written := f.written ++ s, count := f.count + 1 } :
            FmtState).count + j) = true := by
      intro j hj
      show f.writeOk (f.count + 1 + j) = true
      have e1 : f.count + 1 + j = f.count + (j + 1) := by omega
      rw [e1]
      exact hok (j + 1) (by simpa using Nat.succ_lt_succ hj)
    have hstep : writeSeq (s :: rest) f =
        writeSeq rest { f with written := f.written ++ s, count := f.count + 1 } := by
      simp [writeSeq, hw]
    rw [hstep, ih _ hrest]
    simp [joinAll, String.append_assoc, FmtState.mk.injEq]
    omega

theorem writeSeq_fail (pieces : List String) (f : FmtState) (k : Nat)
    (hk : k < pieces.length)
    (hfail : f.writeOk (f.count + k) = false)
    (hpre : ∀ j, j < k → f.writeOk (f.count + j) = true) :
    writeSeq pieces f =
      ({ f with written := f.written ++ joinAll (pieces.take k),
                count := f.count + k }, false) := by
  induction pieces generalizing f k with
  | nil => simp at hk
  | cons s rest ih =>
    cases k with
    | zero =>
      have h0 : f.writeOk f.count = false := by simpa using hfail
      simp [writeSeq, FmtState.write, h0, joinAll]
    | succ k =>
      have h0 : f.writeOk f.count = true := by
        simpa using hpre 0 (Nat.succ_pos k)
      have hw : FmtState.write f s =
          ({ f with written := f.written ++ s, count := f.count + 1 }, true) := by
        simp [FmtState.write, h0]
      have hstep : writeSeq (s :: rest) f =
          writeSeq rest { f with written := f.written ++ s, count := f.count + 1 } := by
        simp [writeSeq, hw]
      have hfail' : ({ f with written := f.written ++ s, count := f.count + 1 } :
          FmtState).writeOk
          (({ f with written := f.written ++ s, count := f.count + 1 } :
            FmtState).count + k) = false := by
        show f.writeOk (f.count + 1 + k) = false
        have e1 : f.count + 1 + k = f.count + (k + 1) := by omega
        rw [e1]; exact hfail
      have hpre' : ∀ j, j < k →
          ({ f with written := f.written ++ s, count := f.count + 1 } :
            FmtState).writeOk
            (({ f with written := f.written ++ s, count := f.count + 1 } :
              FmtState).count + j) = true := by
        intro j hj
        show f.writeOk (f.count + 1 + j) = true
        have e1 : f.count + 1 + j = f.count + (j + 1) := by omega
        rw [e1]
        exact hpre (j + 1) (Nat.succ_lt_succ hj)
      rw [hstep, ih _ k (by simpa using Nat.lt_of_succ_lt_succ hk) hfail' hpre']
      simp [joinAll, String.append_assoc, FmtState.mk.injEq]
      omega

theorem writeSeq_ok_iff (pieces : List String) (f : FmtState) :
    (writeSeq pieces f).2 = true ↔
      ∀ j, j < pieces.length → f.writeOk (f.count + j) = true := by
  induction pieces generalizing f with
  | nil => simp [writeSeq]
  | cons s rest ih =>
    by_cases h0 : f.writeOk f.count = true
    · have hw : FmtState.write f s =
          ({ f with written := f.written ++ s, count := f.count + 1 }, true) := by
        simp [FmtState.write, h0]
      have hstep : writeSeq (s :: rest) f =
          writeSeq rest { f with written := f.written ++ s, count := f.count + 1 } := by
        simp [writeSeq, hw]
      rw [hstep, ih]
      constructor
      · intro hall j hj
        cases j with
        | zero => simpa using h0
        | succ j =>
          have e1 : f.count + (j + 1) = f.count + 1 + j := by omega
          rw [e1]
          have hj' : j < rest.length := by simpa using Nat.lt_of_succ_lt_succ hj
          exact hall j hj'
      · intro hall j hj
        show f.writeOk (f.count + 1 + j) = true
        have e1 : f.count + 1 + j = f.count + (j + 1) := by omega
        rw [e1]
        exact hall (j + 1) (by simpa using Nat.succ_lt_succ hj)
    · have hstep : writeSeq (s :: rest) f = (f, false) := by
        simp [writeSeq, FmtState.write, h0]
      rw [hstep]
      simp only [Bool.false_eq_true, false_iff]
      intro hall
      exact h0 (by simpa using hall 0 (by simp))

theorem writeSeq_count_le (pieces : List String) (f : FmtState) :
    (writeSeq pieces f).1.count ≤ f.count + pieces.length := by
  induction pieces generalizing f with
  | nil => simp [writeSeq]
  | cons s rest ih =>
    by_cases h0 : f.writeOk f.count = true
    · have hw : FmtState.write f s =
          ({ f with written := f.written ++ s, count := f.count + 1 }, true) := by
        simp [FmtState.write, h0]
      have hstep : writeSeq (s :: rest) f =
          writeSeq rest { f with written := f.written ++ s, count := f.count + 1 } := by
        simp [writeSeq, hw]
      rw [hstep]
      have := ih { f with written := f.written ++ s, count := f.count + 1 }
      simp at this ⊢
      omega
    · have hstep : writeSeq (s :: rest) f = (f, false) := by
        simp [writeSeq, FmtState.write, h0]
      rw [hstep]
      simp

theorem debugLoop_eq_writeSeq (h : Handler) (errs : List ErrChain) (f : FmtState) :
    Handler.debugLoop h errs f =
      writeSeq (errs.map fun x => h.separator ++ x.display) f := by
  induction errs generalizing f with
  | nil => rfl
  | cons e rest ih =>
    simp only [Handler.debugLoop, writeSeq, List.map_cons]
    by_cases hc : (FmtState.write f (h.separator ++ e.display)).2 = true
    · simp only [hc, if_true]
      exact ih _
    · simp only [hc]
      simp at hc
      simp [hc]

theorem debug_eq_writeSeq (h : Handler) (e : ErrChain) (f : FmtState) :
    Handler.debug h e f false = writeSeq (writePieces h e) f := by
  cases e with
  | leaf d r =>
    simp only [Handler.debug, writePieces, writeSeq, ErrChain.source, ErrChain.display,
      Bool.false_eq_true, if_false]
  | cons d r c =>
    simp only [Handler.debug, writePieces, writeSeq, ErrChain.source, ErrChain.display,
      Bool.false_eq_true, if_false]
    by_cases hc : (FmtState.write f d).2 = true
    · simp only [hc, if_true]
      exact debugLoop_eq_writeSeq h (chainList c) _
    · simp at hc
      simp [hc]

theorem displays_leaf (d r : String) : displays (ErrChain.leaf d r) = [d] := rfl

theorem displays_cons (d r : String) (c : ErrChain) :
    displays (ErrChain.cons d r c) = d :: (chainList c).map ErrChain.display := rfl

theorem joinAll_writePieces (h : Handler) (e : ErrChain) :
    joinAll (writePieces h e) = sepJoin h.separator (displays e) := by
  cases e with
  | leaf d r =>
    simp [writePieces, displays_leaf, sepJoin, joinAll, ErrChain.source, ErrChain.display]
  | cons d r c =>
    rw [displays_cons, sepJoin_eq]
    simp only [writePieces, ErrChain.source, ErrChain.display, joinAll_cons, List.map_map]
    rfl

theorem writePieces_length (h : Handler) (e : ErrChain) :
    (writePieces h e).length = (chainList e).length := by
  cases e with
  | leaf d r => rfl
  | cons d r c => simp [writePieces, chainList, ErrChain.source]

theorem chainList_ne_nil (e : ErrChain) : chainList e ≠ [] := by
  cases e <;> simp [chainList]

theorem chainList_head (e : ErrChain) : (chainList e).head? = some e := by
  cases e <;> rfl

theorem rootCause_source (e : ErrChain) : (rootCause e).source = none := by
  induction e with
  | leaf d r => rfl
  | cons d r c ih => simpa [rootCause] using ih

theorem chainList_getLast (e : ErrChain) (hne : chainList e ≠ []) :
    (chainList e).getLast hne = rootCause e := by
  induction e with
  | leaf d r => rfl
  | cons d r c ih =>
    show (ErrChain.cons d r c :: chainList c).getLast _ = rootCause c
    rw [List.getLast_cons (chainList_ne_nil c)]
    exact ih (chainList_ne_nil c)

theorem chainList_sourceChain (e : ErrChain) :
    List.Chain' (fun a b => a.source = some b) (chainList e) := by
  induction e with
  | leaf d r => simp [chainList]
  | cons d r c ih =>
    show List.Chain' _ (ErrChain.cons d r c :: chainList c)
    rw [List.chain'_cons']
    refine ⟨?_, ih⟩
    intro b hb
    rw [chainList_head] at hb
    cases hb
    rfl

theorem debug_min_allOk (h : Handler) (e : ErrChain) (f : FmtState)
    (hf : ∀ i, f.writeOk i = true) :
    Handler.debug h e f false =
      ({ f with written := f.written ++ sepJoin h.separator (displays e),
                count := f.count + (writePieces h e).length }, true) := by
  rw [debug_eq_writeSeq, writeSeq_ok _ _ (fun j _ => hf _), joinAll_writePieces]

/-- Claim C1: in minimal (non-alternate) mode, rendering a chain writes to
the sink exactly `display(e0) + sep + display(e1) + ... + sep + display(en)`
with the nodes in root-to-leaf order, each rendered exactly once; a
single-node chain renders as exactly `display(e0)` with the separator never
appearing. -/
theorem debug_minimal_renders_chain (h : Handler) (e : ErrChain) :
    (Handler.debug h e (FmtState.init alwaysOk) false).1.written
        = sepJoin h.separator (displays e)
    ∧ (Handler.debug h e (FmtState.init alwaysOk) false).2 = true
    ∧ displays e = (chainList e).map ErrChain.display
    ∧ (e.source = none →
        (Handler.debug h e (FmtState.init alwaysOk) false).1.written
          = e.display) := by
  have hd := debug_min_allOk h e (FmtState.init alwaysOk) (fun i => rfl)
  refine ⟨?_, ?_, rfl, ?_⟩
  · rw [hd]
    simp [FmtState.init]
  · rw [hd]
  · intro hsrc
    cases e with
    | leaf d r =>
      rw [hd]
      simp [FmtState.init, displays_leaf, sepJoin, ErrChain.display]
    | cons d r c =>
      simp [ErrChain.source] at hsrc

/-- Witness for C1 at the one-node chain `"cause"`. -/
theorem debug_minimal_renders_chain_w :
    ((Handler.new ": ").debug (ErrChain.leaf "cause" "z")
        (FmtState.init alwaysOk) false).1.written
      = (ErrChain.leaf "cause" "z").display :=
  (debug_minimal_renders_chain (Handler.new ": ")
    (ErrChain.leaf "cause" "z")).2.2.2 rfl

/-- Claim C2: starting from the empty installation slot, the first
`install_custom` succeeds and the second fails with an `InstallError`; the
failed attempt is a no-op, and the hook left in the slot is the one from
the first call, carrying the first call's separator. -/
theorem install_twice_first_wins (s1 s2 : String) :
    (install_custom InstallSlot.empty s1).2 = Except.ok ()
    ∧ (install_custom (install_custom InstallSlot.empty s1).1 s2).2
        = Except.error InstallError.alreadyInstalled
    ∧ (install_custom (install_custom InstallSlot.empty s1).1 s2).1
        = (install_custom InstallSlot.empty s1).1
    ∧ (install_custom InstallSlot.empty s1).1.hook = some (installHook s1)
    ∧ ∀ e : ErrChain, (installHook s1 e).separator = s1 :=
  ⟨rfl, rfl, rfl, rfl, fun _ => rfl⟩

/-- Counterexample for C3 as stated: there is a chain (a single node whose
generic debug rendering coincides with its display string) on which the
alternate-mode output equals the minimal-mode output, so the alternate
output is not structurally different from the minimal output for every
chain. -/
theorem alternate_equals_minimal_at_cex :
    ((Handler.new ": ").debug (ErrChain.leaf "a" "a")
        (FmtState.init alwaysOk) true).1.written
      = ((Handler.new ": ").debug (ErrChain.leaf "a" "a")
          (FmtState.init alwaysOk) false).1.written
    ∧ ((Handler.new ": ").debug (ErrChain.leaf "a" "a")
        (FmtState.init alwaysOk) true).1.written = "a" := by
  constructor <;> decide

/-- Claim C3 (amended): when the alternate flag is true, `debug` delegates
entirely to the generic structural debug rendering of the chain and
returns, bypassing the minimal one-line path; the result is independent of
the configured separator, and the output is exactly the chain's generic
debug rendering (which may coincide with the minimal output for particular
chains). -/
theorem alternate_mode_delegates (h : Handler) (e : ErrChain) (f : FmtState) :
    Handler.debug h e f true = FmtState.write f e.debugRepr
    ∧ (∀ s1 s2 : String,
        Handler.debug (Handler.new s1) e f true
          = Handler.debug (Handler.new s2) e f true)
    ∧ (Handler.debug h e (FmtState.init alwaysOk) true).1.written
        = e.debugRepr := by
  refine ⟨rfl, fun s1 s2 => rfl, ?_⟩
  show ((FmtState.init alwaysOk).write e.debugRepr).1.written = e.debugRepr
  simp [FmtState.write, FmtState.init, alwaysOk]

/-- Claim C4: minimal-mode `debug` succeeds iff every write succeeds; when
the first failing write is the `k`-th, it returns an error having written
exactly the first `k` pieces — traversal aborts immediately (no later node
is written) and the previously written partial output is kept. -/
theorem debug_write_failure_propagation (h : Handler) (e : ErrChain)
    (oracle : Nat → Bool) :
    ((Handler.debug h e (FmtState.init oracle) false).2 = true ↔
      ∀ j, j < (writePieces h e).length → oracle j = true)
    ∧ (∀ k, k < (writePieces h e).length → oracle k = false →
        (∀ j, j < k → oracle j = true) →
        Handler.debug h e (FmtState.init oracle) false =
          ({ written := joinAll ((writePieces h e).take k), count := k,
             writeOk := oracle }, false)) := by
  constructor
  · rw [debug_eq_writeSeq]
    have hiff := writeSeq_ok_iff (writePieces h e) (FmtState.init oracle)
    simpa [FmtState.init] using hiff
  · intro k hk hfail hpre
    rw [debug_eq_writeSeq]
    rw [writeSeq_fail (writePieces h e) (FmtState.init oracle) k hk
      (by show oracle (0 + k) = false; rw [Nat.zero_add]; exact hfail)
      (by intro j hj; show oracle (0 + j) = true; rw [Nat.zero_add];
          exact hpre j hj)]
    simp [FmtState.init]

/-- Witness for C4: a two-node chain on a sink whose second write fails
renders only the first piece and reports failure. -/
theorem debug_write_failure_propagation_w :
    Handler.debug (Handler.new ": ")
        (ErrChain.cons "a" "x" (ErrChain.leaf "b" "y"))
        (FmtState.init fun i => i == 0) false =
      ({ written := joinAll
            ((writePieces (Handler.new ": ")
              (ErrChain.cons "a" "x" (ErrChain.leaf "b" "y"))).take 1),
         count := 1, writeOk := fun i => i == 0 }, false) :=
  (debug_write_failure_propagation (Handler.new ": ")
    (ErrChain.cons "a" "x" (ErrChain.leaf "b" "y")) (fun i => i == 0)).2 1
    (by decide) (by decide) (by decide)

/-- Claim C5: the no-argument `install` behaves identically to
`install_custom` called with `": "` on the same slot state, and on success
the installed hook produces handlers whose separator is exactly `": "`. -/
theorem install_default_separator (slot : InstallSlot) :
    install slot = install_custom slot ": "
    ∧ DEFAULT_SEPARATOR = ": "
    ∧ (slot.hook = none →
        ∀ e : ErrChain,
          Option.map (fun hk => (hk e).separator) (install slot).1.hook
            = some ": ") := by
  refine ⟨rfl, rfl, ?_⟩
  intro hslot e
  obtain ⟨hk⟩ := slot
  have hk0 : hk = none := hslot
  subst hk0
  rfl

/-- Witness for C5 at the empty slot. -/
theorem install_default_separator_w :
    Option.map (fun hk => (hk (ErrChain.leaf "a" "b")).separator)
        (install InstallSlot.empty).1.hook = some ": " :=
  (install_default_separator InstallSlot.empty).2.2 rfl (ErrChain.leaf "a" "b")

/-- Claim C6: the cause traversal of a finite chain is the finite sequence
starting at the root, linked node-to-cause, stopping at the first node with
no further cause; and minimal-mode `debug` performs at most chain-length
many successful writes, for every sink oracle. -/
theorem debug_minimal_terminates_bounded (h : Handler) (e : ErrChain)
    (oracle : Nat → Bool) :
    (chainList e).head? = some e
    ∧ List.Chain' (fun a b => a.source = some b) (chainList e)
    ∧ ((chainList e).getLast (chainList_ne_nil e)).source = none
    ∧ (Handler.debug h e (FmtState.init oracle) false).1.count
        ≤ (chainList e).length := by
  refine ⟨chainList_head e, chainList_sourceChain e, ?_, ?_⟩
  · rw [chainList_getLast]
    exact rootCause_source e
  · rw [debug_eq_writeSeq]
    have hle := writeSeq_count_le (writePieces h e) (FmtState.init oracle)
    rw [writePieces_length] at hle
    simpa [FmtState.init] using hle

/-- Claim C7: rendering the same chain with two separators yields outputs
that are the separator-joins of one and the same message list, in the same
order — they differ only in the separator substrings. -/
theorem separator_only_difference (e : ErrChain) (s1 s2 : String) :
    ∃ msgs : List String,
      msgs = displays e
      ∧ (Handler.debug (Handler.new s1) e (FmtState.init alwaysOk) false).1.written
          = sepJoin s1 msgs
      ∧ (Handler.debug (Handler.new s2) e (FmtState.init alwaysOk) false).1.written
          = sepJoin s2 msgs := by
  refine ⟨displays e, rfl, ?_, ?_⟩
  · rw [debug_min_allOk _ _ _ (fun i => rfl)]
    simp [FmtState.init, Handler.new]
  · rw [debug_min_allOk _ _ _ (fun i => rfl)]
    simp [FmtState.init, Handler.new]

theorem write_allOk (f : FmtState) (s : String)
    (hf : ∀ i, f.writeOk i = true) :
    FmtState.write f s =
      ({ f with written := f.written ++ s, count := f.count + 1 }, true) := by
  simp [FmtState.write, hf f.count]

/-- Claim C8: on a sink that accepts every write, rendering in either mode
is deterministic and idempotent — it appends exactly one output string
determined by the handler, the chain and the mode, succeeds, and rendering
again with the same formatter and mode appends the identical string; the
chain value is never modified (the rendering functions take it read-only)
and the only effect is the append to the sink. -/
theorem debug_deterministic_idempotent (h : Handler) (e : ErrChain)
    (f : FmtState) (alt : Bool) (hf : ∀ i, f.writeOk i = true) :
    ∃ out : String,
      out = (if alt = true then e.debugRepr
             else sepJoin h.separator (displays e))
      ∧ (Handler.debug h e f alt).1.written = f.written ++ out
      ∧ (Handler.debug h e f alt).2 = true
      ∧ (Handler.debug h e (Handler.debug h e f alt).1 alt).1.written
          = f.written ++ out ++ out := by
  cases alt with
  | false =>
    have h1 := debug_min_allOk h e f hf
    refine ⟨sepJoin h.separator (displays e), rfl, ?_, ?_, ?_⟩
    · rw [h1]
    · rw [h1]
    · have h2 := debug_min_allOk h e
        ({ f with written := f.written ++ sepJoin h.separator (displays e),
                  count := f.count + (writePieces h e).length })
        (fun i => hf i)
      rw [h1, h2]
  | true =>
    have h1 : Handler.debug h e f true = FmtState.write f e.debugRepr := rfl
    have h2 := write_allOk f e.debugRepr hf
    refine ⟨e.debugRepr, rfl, ?_, ?_, ?_⟩
    · rw [h1, h2]
    · rw [h1, h2]
    · have h3 := write_allOk
        ({ f with written := f.written ++ e.debugRepr, count := f.count + 1 })
        e.debugRepr (fun i => hf i)
      rw [h1, h2]
      show (FmtState.write _ e.debugRepr).1.written = _
      rw [h3]

/-- Witness for C8 at a concrete chain, the always-accepting sink and the
alternate mode. -/
theorem debug_deterministic_idempotent_w :
    ∃ out : String,
      out = (if true = true
             then (ErrChain.cons "a" "x" (ErrChain.leaf "b" "y")).debugRepr
             else sepJoin (Handler.new ": ").separator
                    (displays (ErrChain.cons "a" "x" (ErrChain.leaf "b" "y"))))
      ∧ (Handler.debug (Handler.new ": ")
            (ErrChain.cons "a" "x" (ErrChain.leaf "b" "y"))
            (FmtState.init alwaysOk) true).1.written
          = (FmtState.init alwaysOk).written ++ out
      ∧ (Handler.debug (Handler.new ": ")
            (ErrChain.cons "a" "x" (ErrChain.leaf "b" "y"))
            (FmtState.init alwaysOk) true).2 = true
      ∧ (Handler.debug (Handler.new ": ")
            (ErrChain.cons "a" "x" (ErrChain.leaf "b" "y"))
            (Handler.debug (Handler.new ": ")
              (ErrChain.cons "a" "x" (ErrChain.leaf "b" "y"))
              (FmtState.init alwaysOk) true).1 true).1.written
          = (FmtState.init alwaysOk).written ++ out ++ out :=
  debug_deterministic_idempotent (Handler.new ": ")
    (ErrChain.cons "a" "x" (ErrChain.leaf "b" "y"))
    (FmtState.init alwaysOk) true (fun _ => rfl)

/-- Claim C9: minimal-mode rendering performs no escaping, so it is not
injective: the single node `"a: b"` and the two-node chain `"a" <- "b"`
render to the identical string under the separator `": "`, while being
distinct chains. -/
theorem minimal_render_not_injective :
    ((Handler.new ": ").debug (ErrChain.leaf "a: b" "x")
        (FmtState.init alwaysOk) false).1.written
      = ((Handler.new ": ").debug (ErrChain.cons "a" "x" (ErrChain.leaf "b" "x"))
          (FmtState.init alwaysOk) false).1.written
    ∧ ErrChain.leaf "a: b" "x" ≠ ErrChain.cons "a" "x" (ErrChain.leaf "b" "x") := by
  constructor <;> decide

/-- Claim C10: the hook closure registered by `install_custom` ignores the
error value passed to it — for every error value the produced handler is
`Handler.new sep`, carrying exactly the installed separator. -/
theorem install_hook_ignores_error (sep : String) (e1 e2 : ErrChain) :
    installHook sep e1 = installHook sep e2
    ∧ installHook sep e1 = Handler.new sep
    ∧ (installHook sep e1).separator = sep :=
  ⟨rfl, rfl, rfl⟩
